import Mathlib

/-!
Verification of the content-signing / authenticated-encryption engine in
`src/process/text.rs` of the rcli repository.

Bytes are modelled as `Nat` values below 256; byte strings as `List Nat`.
Rust `Result` values together with the possibility of a panic are modelled
by the `Outcome` type: `ok` is `Ok`, `error` is a recoverable `Err`
(anyhow), and `panicked` is a Rust panic, which aborts the process and is
distinct from both.  I/O is abstracted: every operation receives the bytes
its reader would produce, and the filesystem (where one is consulted) is a
map from path bytes to optional file contents.  Randomness is abstracted:
the fresh nonce or generated key that the CSPRNG would produce is an
explicit argument.
-/

namespace RCli

/-- Outcome of a Rust call: `ok` models `Ok`, `error` a recoverable `Err`,
and `panicked` a Rust panic (process abort). -/
inductive Outcome (α : Type) where
  | ok : α → Outcome α
  | error : String → Outcome α
  | panicked : Outcome α
deriving DecidableEq

/-- ASCII codes of the URL-safe base64 alphabet
`A`-`Z`, `a`-`z`, `0`-`9`, `-`, `_` used by `URL_SAFE_NO_PAD`. -/
def b64Codes : List Nat :=
  [65, 66, 67, 68, 69, 70, 71, 72, 73, 74, 75, 76, 77, 78, 79, 80, 81, 82,
   83, 84, 85, 86, 87, 88, 89, 90,
   97, 98, 99, 100, 101, 102, 103, 104, 105, 106, 107, 108, 109, 110, 111,
   112, 113, 114, 115, 116, 117, 118, 119, 120, 121, 122,
   48, 49, 50, 51, 52, 53, 54, 55, 56, 57, 45, 95]

/-- ASCII code of the alphabet symbol for a sextet value. -/
def b64CodeOf (s : Nat) : Nat := b64Codes.getD s 0

/-- Sextet value of an ASCII code, `none` when the code is not in the
alphabet (the strict decoder rejects such input). -/
def b64IndexOf (c : Nat) : Option Nat := b64Codes.findIdx? (fun x => x == c)

/-- Byte groups to sextets, as `base64::encode` with no padding: each
3-byte group yields 4 sextets, a trailing 2-byte group 3 sextets, a
trailing single byte 2 sextets. -/
def b64EncodeGroups : List Nat → List Nat
  | a :: b :: c :: rest =>
      a / 4 :: ((a % 4) * 16 + b / 16) :: ((b % 16) * 4 + c / 64) :: c % 64 ::
        b64EncodeGroups rest
  | [a, b] => [a / 4, (a % 4) * 16 + b / 16, (b % 16) * 4]
  | [a] => [a / 4, (a % 4) * 16]
  | [] => []

/-- Sextets back to bytes, as the strict `base64::decode` with no padding:
a trailing group of one sextet is rejected, and (since the engine leaves
`decode_allow_trailing_bits` at its default `false`) nonzero trailing bits
in a final short group are rejected. -/
def b64DecodeGroups : List Nat → Option (List Nat)
  | a :: b :: c :: d :: rest =>
      match b64DecodeGroups rest with
      | some tail =>
          some ((a * 4 + b / 16) :: ((b % 16) * 16 + c / 4) :: ((c % 4) * 64 + d) :: tail)
      | none => none
  | [a, b, c] =>
      if c % 4 = 0 then some [a * 4 + b / 16, (b % 16) * 16 + c / 4] else none
  | [a, b] => if b % 16 = 0 then some [a * 4 + b / 16] else none
  | [_] => none
  | [] => some []

/-- `URL_SAFE_NO_PAD.encode`: bytes to the ASCII bytes of the base64 text. -/
def b64EncodeBytes (bs : List Nat) : List Nat := (b64EncodeGroups bs).map b64CodeOf

/-- `URL_SAFE_NO_PAD.decode`: ASCII bytes of base64 text back to bytes,
`none` on any malformed input. -/
def b64DecodeBytes (cs : List Nat) : Option (List Nat) :=
  match cs.mapM b64IndexOf with
  | some sextets => b64DecodeGroups sextets
  | none => none

theorem b64IndexOf_b64CodeOf : ∀ s, s < 64 → b64IndexOf (b64CodeOf s) = some s := by
  decide

theorem b64EncodeGroups_lt (bs : List Nat) (h : ∀ x ∈ bs, x < 256) :
    ∀ s ∈ b64EncodeGroups bs, s < 64 := by
  induction bs using b64EncodeGroups.induct with
  | case1 a b c rest ih =>
    have ha := h a (by simp)
    have hb := h b (by simp)
    have hc := h c (by simp)
    intro s hs
    simp only [b64EncodeGroups, List.mem_cons] at hs
    rcases hs with rfl | rfl | rfl | rfl | hs
    · omega
    · omega
    · omega
    · omega
    · exact ih (fun x hx => h x (by simp [hx])) s hs
  | case2 a b =>
    have ha := h a (by simp)
    have hb := h b (by simp)
    intro s hs
    simp only [b64EncodeGroups, List.mem_cons] at hs
    rcases hs with rfl | rfl | rfl | hs
    · omega
    · omega
    · omega
    · simp at hs
  | case3 a =>
    have ha := h a (by simp)
    intro s hs
    simp only [b64EncodeGroups, List.mem_cons] at hs
    rcases hs with rfl | rfl | hs
    · omega
    · omega
    · simp at hs
  | case4 => intro s hs; simp [b64EncodeGroups] at hs

theorem mapM_b64IndexOf_map_b64CodeOf (l : List Nat) (h : ∀ s ∈ l, s < 64) :
    (l.map b64CodeOf).mapM b64IndexOf = some l := by
  induction l with
  | nil => rfl
  | cons s t ih =>
    have hs := h s (by simp)
    have ht : ∀ x ∈ t, x < 64 := fun x hx => h x (by simp [hx])
    simp only [List.map_cons, List.mapM_cons, b64IndexOf_b64CodeOf s hs, ih ht,
      Option.bind_eq_bind, Option.some_bind, Option.pure_def]

theorem b64DecodeGroups_b64EncodeGroups (bs : List Nat) (h : ∀ x ∈ bs, x < 256) :
    b64DecodeGroups (b64EncodeGroups bs) = some bs := by
  induction bs using b64EncodeGroups.induct with
  | case1 a b c rest ih =>
    have ha := h a (by simp)
    have hb := h b (by simp)
    have hc := h c (by simp)
    have ih' := ih (fun x hx => h x (by simp [hx]))
    simp only [b64EncodeGroups, b64DecodeGroups, ih']
    have e1 : (a / 4) * 4 + ((a % 4) * 16 + b / 16) / 16 = a := by omega
    have e2 : (((a % 4) * 16 + b / 16) % 16) * 16 + ((b % 16) * 4 + c / 64) / 4 = b := by
      omega
    have e3 : (((b % 16) * 4 + c / 64) % 4) * 64 + c % 64 = c := by omega
    rw [e1, e2, e3]
  | case2 a b =>
    have ha := h a (by simp)
    have hb := h b (by simp)
    simp only [b64EncodeGroups, b64DecodeGroups]
    have e0 : ((b % 16) * 4) % 4 = 0 := by omega
    have e1 : (a / 4) * 4 + ((a % 4) * 16 + b / 16) / 16 = a := by omega
    have e2 : (((a % 4) * 16 + b / 16) % 16) * 16 + ((b % 16) * 4) / 4 = b := by omega
    rw [if_pos e0, e1, e2]
  | case3 a =>
    have ha := h a (by simp)
    simp only [b64EncodeGroups, b64DecodeGroups]
    have e0 : ((a % 4) * 16) % 16 = 0 := by omega
    have e1 : (a / 4) * 4 + ((a % 4) * 16) / 16 = a := by omega
    rw [if_pos e0, e1]
  | case4 => rfl

theorem b64_roundtrip (bs : List Nat) (h : ∀ x ∈ bs, x < 256) :
    b64DecodeBytes (b64EncodeBytes bs) = some bs := by
  unfold b64DecodeBytes b64EncodeBytes
  rw [mapM_b64IndexOf_map_b64CodeOf _ (b64EncodeGroups_lt bs h)]
  exact b64DecodeGroups_b64EncodeGroups bs h

/-- Mixing fold over a byte list, used by the modelled external primitives
below. -/
def byteFold (l : List Nat) (s : Nat) : Nat :=
  l.foldl (fun a b => (a * 131 + b + 1) % 65536) s

/-- Modelled from the external `blake3` crate: `blake3::keyed_hash` is a
deterministic function of the 32-byte key and the message producing a
32-byte digest.  The claims depend only on determinism, on the output
length, and on the digest depending on nothing but (key, message); the
mixing below is a stand-in for the real compression function. -/
def blake3KeyedHash (key msg : List Nat) : List Nat :=
  (List.range 32).map
    (fun i => (byteFold key 17 * (i + 3) + byteFold msg 29 * (i + 1) + i) % 256)

/-- Modelled from the external `ed25519_dalek` crate: the unique 64-byte
signature that verifies for a given public key and message.  The claims
depend only on verification being a deterministic boolean function of
(public key, message, 64-byte signature). -/
def ed25519SigOf (pk msg : List Nat) : List Nat :=
  (List.range 64).map (fun i => (byteFold pk 3 * 31 + byteFold msg 5 * 17 + i) % 256)

/-- Modelled from the external `ed25519_dalek` crate:
`VerifyingKey::verify(msg, sig).is_ok()` for a 64-byte signature. -/
def ed25519Verify (pk msg sig : List Nat) : Bool :=
  sig == ed25519SigOf pk msg

/-- Modelled from the external `chacha20poly1305` crate: byte `i` of the
XChaCha20 keystream for a key and 24-byte nonce.  The claims depend only on
the stream being a deterministic byte function of (key, nonce, position). -/
def ksByte (key nonce : List Nat) (i : Nat) : Nat :=
  (byteFold key 7 * 31 + byteFold nonce 11 * 17 + i * 13 + i * i) % 256

/-- First `n` bytes of the modelled XChaCha20 keystream. -/
def keystream (key nonce : List Nat) (n : Nat) : List Nat :=
  (List.range n).map (ksByte key nonce)

/-- Pointwise XOR, the stream-cipher combination of message and keystream. -/
def zipXor (a b : List Nat) : List Nat := List.zipWith (fun x y => x ^^^ y) a b

/-- Modelled from the external `chacha20poly1305` crate: the 16-byte
Poly1305 authentication tag over (key, nonce, ciphertext). -/
def macTag (key nonce ct : List Nat) : List Nat :=
  (List.range 16).map (fun i => (byteFold ct (ksByte key nonce (4096 + i)) + i) % 256)

/-- Modelled from the external `chacha20poly1305` crate:
`cipher.encrypt(nonce, msg)` returns the ciphertext (message XOR keystream)
followed by the 16-byte authentication tag. -/
def aeadEncrypt (key nonce msg : List Nat) : List Nat :=
  zipXor msg (keystream key nonce msg.length) ++
    macTag key nonce (zipXor msg (keystream key nonce msg.length))

/-- Modelled from the external `chacha20poly1305` crate:
`cipher.decrypt(nonce, input)` splits off the trailing 16-byte tag,
recomputes it over the ciphertext and, on a match, returns ciphertext XOR
keystream; on a mismatch (or input shorter than the tag) it returns an
error (`none`), yielding no plaintext. -/
def aeadDecrypt (key nonce input : List Nat) : Option (List Nat) :=
  if input.length < 16 then none
  else
    let ct := input.take (input.length - 16)
    let tag := input.drop (input.length - 16)
    if tag = macTag key nonce ct then some (zipXor ct (keystream key nonce ct.length))
    else none

/-- `struct Blake3 { key: [u8; 32] }` (src/process/text.rs:44). -/
structure Blake3 where
  key : List Nat
deriving DecidableEq

/-- `Blake3::try_new` (src/process/text.rs:185): `&key[..32]` — in Rust
this slice panics when the input is shorter than 32 bytes; otherwise the
first 32 bytes become the key and the `try_into` conversion succeeds. -/
def Blake3.try_new (key : List Nat) : Outcome Blake3 :=
  if key.length < 32 then .panicked else .ok ⟨key.take 32⟩

/-- `TextSign for Blake3` (src/process/text.rs:94): the signature is the
keyed BLAKE3 digest of the buffered input. -/
def Blake3.sign (self : Blake3) (msg : List Nat) : List Nat :=
  blake3KeyedHash self.key msg

/-- `TextVerify for Blake3` (src/process/text.rs:103): recompute the digest
and compare to the supplied signature for exact byte equality. -/
def Blake3.verify (self : Blake3) (msg sig : List Nat) : Bool :=
  blake3KeyedHash self.key msg == sig

/-- `struct Ed25519Verifier` (src/process/text.rs:52), holding the 32-byte
public key. -/
structure Ed25519Verifier where
  key : List Nat
deriving DecidableEq

/-- `TextVerify for Ed25519Verifier` (src/process/text.rs:161):
`sig.try_into()?` fails with a recoverable conversion error when `sig` is
not exactly 64 bytes; otherwise the dalek verification result is returned
as a boolean. -/
def Ed25519Verifier.verify (self : Ed25519Verifier) (msg sig : List Nat) :
    Outcome Bool :=
  if sig.length = 64 then .ok (ed25519Verify self.key msg sig)
  else .error "could not convert slice to array"

/-- `struct XChaCha20Poly1305Key` (src/process/text.rs:222), holding the
32-byte key. -/
structure XChaCha20Poly1305Key where
  key : List Nat
deriving DecidableEq

/-- `XChaCha20Poly1305Key::try_new` (src/process/text.rs:230):
`Key::from_slice` is `GenericArray::from_slice`, which panics in Rust
unless the slice length is exactly 32; no error is ever returned. -/
def XChaCha20Poly1305Key.try_new (key : List Nat) : Outcome XChaCha20Poly1305Key :=
  if key.length = 32 then .ok ⟨key⟩ else .panicked

/-- `KeyLoader for XChaCha20Poly1305Key` (src/process/text.rs:245).  The
filesystem is a map from path bytes to optional file contents: when the
path is an existing file its contents are used, otherwise the path string
bytes themselves; either way the bytes are URL-safe unpadded base64-decoded
(recoverable error on failure) and handed to `try_new`. -/
def XChaCha20Poly1305Key.load (fs : List Nat → Option (List Nat))
    (path : List Nat) : Outcome XChaCha20Poly1305Key :=
  let raw := match fs path with
    | some contents => contents
    | none => path
  match b64DecodeBytes raw with
  | some kb => XChaCha20Poly1305Key.try_new kb
  | none => .error "invalid base64"

/-- `TextEncryptor for XChaCha20Poly1305Key` (src/process/text.rs:261): the
fresh random nonce is an explicit argument; the returned envelope is the
nonce concatenated with ciphertext+tag. -/
def XChaCha20Poly1305Key.encrypt (self : XChaCha20Poly1305Key)
    (nonce msg : List Nat) : List Nat :=
  nonce ++ aeadEncrypt self.key nonce msg

/-- `TextDecryptor for XChaCha20Poly1305Key` (src/process/text.rs:302):
base64-decode the input (recoverable error on failure), then
`split_at(24)` — which panics in Rust when the decoded envelope is shorter
than 24 bytes — and AEAD-decrypt the remainder under the first 24 bytes as
nonce. -/
def XChaCha20Poly1305Key.decrypt (self : XChaCha20Poly1305Key)
    (input : List Nat) : Outcome (List Nat) :=
  match b64DecodeBytes input with
  | none => .error "invalid base64"
  | some env =>
    if env.length < 24 then .panicked
    else
      match aeadDecrypt self.key (env.take 24) (env.drop 24) with
      | some pt => .ok pt
      | none => .error "aead::Error"

/-- `process_text_encrypt` (src/process/text.rs:278) for the
XChaCha20Poly1305 format.  `msg` is what the reader yields, `key` the key
argument's bytes, `genKey` the 32-byte key the CSPRNG would produce when
the generation branch is taken, `nonce` the fresh random nonce used inside
`encrypt`.  The result pushes the key actually used, then the envelope. -/
def process_text_encrypt (fs : List Nat → Option (List Nat))
    (msg key genKey nonce : List Nat) : Outcome (List (List Nat)) :=
  let loaded : Outcome XChaCha20Poly1305Key :=
    if key ≠ [45] ∧ key ≠ [] then XChaCha20Poly1305Key.load fs key
    else XChaCha20Poly1305Key.try_new genKey
  match loaded with
  | .ok enc => .ok [enc.key, enc.encrypt nonce msg]
  | .error e => .error e
  | .panicked => .panicked

theorem keystream_length (key nonce : List Nat) (n : Nat) :
    (keystream key nonce n).length = n := by
  simp [keystream]

theorem macTag_length (key nonce ct : List Nat) :
    (macTag key nonce ct).length = 16 := by
  simp [macTag]

theorem zipXor_zipXor (m ks : List Nat) (h : m.length ≤ ks.length) :
    zipXor (zipXor m ks) ks = m := by
  induction m generalizing ks with
  | nil => simp [zipXor]
  | cons a t ih =>
    cases ks with
    | nil => simp at h
    | cons k kt =>
      simp only [zipXor, List.zipWith_cons_cons]
      rw [Nat.xor_cancel_right]
      have ht : t.length ≤ kt.length := by
        simp only [List.length_cons] at h; omega
      have := ih kt ht
      simp only [zipXor] at this
      rw [this]

theorem zipXor_length_of_le (m ks : List Nat) (h : m.length ≤ ks.length) :
    (zipXor m ks).length = m.length := by
  simp [zipXor]; omega

theorem keystream_lt (key nonce : List Nat) (n : Nat) :
    ∀ x ∈ keystream key nonce n, x < 256 := by
  intro x hx
  simp only [keystream, List.mem_map, List.mem_range] at hx
  obtain ⟨i, _, rfl⟩ := hx
  exact Nat.mod_lt _ (by omega)

theorem macTag_lt (key nonce ct : List Nat) : ∀ x ∈ macTag key nonce ct, x < 256 := by
  intro x hx
  simp only [macTag, List.mem_map, List.mem_range] at hx
  obtain ⟨i, _, rfl⟩ := hx
  exact Nat.mod_lt _ (by omega)

theorem zipXor_lt (a b : List Nat) (ha : ∀ x ∈ a, x < 256) (hb : ∀ x ∈ b, x < 256) :
    ∀ x ∈ zipXor a b, x < 256 := by
  induction a generalizing b with
  | nil => simp [zipXor]
  | cons x t ih =>
    cases b with
    | nil => simp [zipXor]
    | cons y u =>
      intro z hz
      simp only [zipXor, List.zipWith_cons_cons, List.mem_cons] at hz
      rcases hz with rfl | hz
      · have hx := ha x (by simp)
        have hy := hb y (by simp)
        have h8 : (2 : Nat) ^ 8 = 256 := by norm_num
        have hx8 : x < 2 ^ 8 := by rw [h8]; exact hx
        have hy8 : y < 2 ^ 8 := by rw [h8]; exact hy
        have hxy := Nat.xor_lt_two_pow hx8 hy8
        rw [h8] at hxy
        exact hxy
      · exact ih u (fun w hw => ha w (by simp [hw])) (fun w hw => hb w (by simp [hw])) z hz

theorem aead_roundtrip (key nonce msg : List Nat) :
    aeadDecrypt key nonce (aeadEncrypt key nonce msg) = some msg := by
  have hks : (keystream key nonce msg.length).length = msg.length :=
    keystream_length key nonce msg.length
  have hct : (zipXor msg (keystream key nonce msg.length)).length = msg.length :=
    zipXor_length_of_le _ _ (by omega)
  set ct := zipXor msg (keystream key nonce msg.length) with hctdef
  have hlen : (ct ++ macTag key nonce ct).length = msg.length + 16 := by
    simp [macTag_length, hct]
  have h1 : (ct ++ macTag key nonce ct).take ((ct ++ macTag key nonce ct).length - 16)
      = ct := by
    rw [hlen, Nat.add_sub_cancel, ← hct, List.take_left]
  have h2 : (ct ++ macTag key nonce ct).drop ((ct ++ macTag key nonce ct).length - 16)
      = macTag key nonce ct := by
    rw [hlen, Nat.add_sub_cancel, ← hct, List.drop_left]
  simp only [aeadEncrypt, aeadDecrypt, ← hctdef]
  rw [if_neg (by omega), h1, h2, if_pos rfl, hct]
  rw [hctdef, zipXor_zipXor msg _ (by omega)]

theorem aeadEncrypt_length (key nonce msg : List Nat) :
    (aeadEncrypt key nonce msg).length = msg.length + 16 := by
  have hct : (zipXor msg (keystream key nonce msg.length)).length = msg.length :=
    zipXor_length_of_le _ _ (by simp [keystream_length])
  simp [aeadEncrypt, macTag_length, hct]

theorem aeadEncrypt_lt (key nonce msg : List Nat) (hm : ∀ x ∈ msg, x < 256) :
    ∀ x ∈ aeadEncrypt key nonce msg, x < 256 := by
  intro x hx
  simp only [aeadEncrypt, List.mem_append] at hx
  rcases hx with hx | hx
  · exact zipXor_lt msg _ hm (keystream_lt key nonce msg.length) x hx
  · exact macTag_lt key nonce _ x hx

/-- C1: for every message and every 32-byte key, decrypting the envelope
produced by encrypting the message under that key — the envelope rendered
as URL-safe unpadded base64 text between the two operations — yields
exactly the original message. -/
theorem encrypt_decrypt_roundtrip (key nonce msg : List Nat)
    (_hk : key.length = 32) (hn : nonce.length = 24)
    (hnb : ∀ x ∈ nonce, x < 256) (hmb : ∀ x ∈ msg, x < 256) :
    XChaCha20Poly1305Key.decrypt ⟨key⟩
      (b64EncodeBytes (XChaCha20Poly1305Key.encrypt ⟨key⟩ nonce msg)) = .ok msg := by
  have henvb : ∀ x ∈ XChaCha20Poly1305Key.encrypt ⟨key⟩ nonce msg, x < 256 := by
    intro x hx
    simp only [XChaCha20Poly1305Key.encrypt, List.mem_append] at hx
    rcases hx with hx | hx
    · exact hnb x hx
    · exact aeadEncrypt_lt key nonce msg hmb x hx
  have hdec := b64_roundtrip _ henvb
  have hlen : (XChaCha20Poly1305Key.encrypt ⟨key⟩ nonce msg).length
      = 24 + (msg.length + 16) := by
    simp [XChaCha20Poly1305Key.encrypt, aeadEncrypt_length, hn]
  have htake : (XChaCha20Poly1305Key.encrypt ⟨key⟩ nonce msg).take 24 = nonce := by
    simp only [XChaCha20Poly1305Key.encrypt]
    rw [← hn, List.take_left]
  have hdrop : (XChaCha20Poly1305Key.encrypt ⟨key⟩ nonce msg).drop 24
      = aeadEncrypt key nonce msg := by
    simp only [XChaCha20Poly1305Key.encrypt]
    rw [← hn, List.drop_left]
  simp only [XChaCha20Poly1305Key.decrypt, hdec]
  rw [if_neg (by omega), htake, hdrop, aead_roundtrip]

/-- C1 witness at a concrete key, nonce and message. -/
theorem encrypt_decrypt_roundtrip_witness :
    XChaCha20Poly1305Key.decrypt ⟨List.replicate 32 0⟩
      (b64EncodeBytes (XChaCha20Poly1305Key.encrypt ⟨List.replicate 32 0⟩
        (List.replicate 24 1) [104, 105])) = .ok [104, 105] :=
  encrypt_decrypt_roundtrip (List.replicate 32 0) (List.replicate 24 1) [104, 105]
    (by decide) (by decide) (by decide) (by decide)

/-- C2: for every message and key, the envelope is the 24-byte nonce
concatenated with ciphertext-plus-tag, of length exactly
24 + len(msg) + 16 and never shorter than 24 plus the 16-byte tag; and
decrypt always takes exactly the first 24 bytes of the decoded envelope as
the nonce. -/
theorem envelope_length_and_split (key nonce msg : List Nat) (hn : nonce.length = 24) :
    (XChaCha20Poly1305Key.encrypt ⟨key⟩ nonce msg).length = 24 + msg.length + 16
    ∧ 24 + 16 ≤ (XChaCha20Poly1305Key.encrypt ⟨key⟩ nonce msg).length
    ∧ ∀ input env, b64DecodeBytes input = some env → 24 ≤ env.length →
        XChaCha20Poly1305Key.decrypt ⟨key⟩ input =
          match aeadDecrypt key (env.take 24) (env.drop 24) with
          | some pt => Outcome.ok pt
          | none => Outcome.error "aead::Error" := by
  have hlen : (XChaCha20Poly1305Key.encrypt ⟨key⟩ nonce msg).length
      = 24 + msg.length + 16 := by
    simp [XChaCha20Poly1305Key.encrypt, aeadEncrypt_length, hn]; omega
  refine ⟨hlen, by omega, ?_⟩
  intro input env hdec hlen24
  simp only [XChaCha20Poly1305Key.decrypt, hdec]
  rw [if_neg (by omega)]

/-- C2 witness: the envelope length at a concrete key, nonce and
one-byte message. -/
theorem envelope_length_and_split_witness :
    (XChaCha20Poly1305Key.encrypt ⟨List.replicate 32 0⟩
      (List.replicate 24 1) [104]).length = 24 + 1 + 16 :=
  (envelope_length_and_split (List.replicate 32 0) (List.replicate 24 1) [104]
    (by decide)).1

/-- C3 (code bug): loading a 31-byte key panics in Rust instead of
returning the format error the claim and spec require: `Blake3::try_new`
takes the slice `&key[..32]` (out of bounds for a shorter key) and
`XChaCha20Poly1305Key::try_new` calls `GenericArray::from_slice`, which
panics on any length other than 32. -/
theorem short_key_load_panics :
    Blake3.try_new (List.replicate 31 0) = .panicked
    ∧ XChaCha20Poly1305Key.try_new (List.replicate 31 0) = .panicked := by
  decide

/-- C4: asymmetric verification returns a recoverable format error when
the supplied signature is not exactly 64 bytes, before any cryptographic
verification; with 64 bytes it returns the boolean verification result
(false on mismatch), never a hard error. -/
theorem ed25519_verify_semantics (v : Ed25519Verifier) (msg sig : List Nat) :
    (sig.length ≠ 64 → v.verify msg sig = .error "could not convert slice to array")
    ∧ (sig.length = 64 → v.verify msg sig = .ok (ed25519Verify v.key msg sig)) := by
  constructor
  · intro h
    simp [Ed25519Verifier.verify, h]
  · intro h
    simp [Ed25519Verifier.verify, h]

/-- C4 witness: a 63-byte signature is a format error; an all-zero
64-byte signature verifies to the boolean false, not an error. -/
theorem ed25519_verify_semantics_witness :
    Ed25519Verifier.verify ⟨List.replicate 32 2⟩ [104] (List.replicate 63 0) =
      .error "could not convert slice to array"
    ∧ Ed25519Verifier.verify ⟨List.replicate 32 2⟩ [104] (List.replicate 64 0) =
      .ok false := by
  refine ⟨(ed25519_verify_semantics ⟨List.replicate 32 2⟩ [104]
    (List.replicate 63 0)).1 (by decide), ?_⟩
  rw [(ed25519_verify_semantics ⟨List.replicate 32 2⟩ [104]
    (List.replicate 64 0)).2 (by decide)]
  decide

/-- C5: keyed-hash verify(M, sign(M, K), K) is true; verification returns
true exactly when the supplied signature equals, byte for byte, the
32-byte keyed hash of the message under the key. -/
theorem blake3_sign_verify_roundtrip (key msg sig : List Nat) :
    Blake3.verify ⟨key⟩ msg (Blake3.sign ⟨key⟩ msg) = true
    ∧ (Blake3.verify ⟨key⟩ msg sig = true ↔ sig = blake3KeyedHash key msg)
    ∧ (blake3KeyedHash key msg).length = 32 := by
  refine ⟨by simp [Blake3.verify, Blake3.sign], ?_, by simp [blake3KeyedHash]⟩
  rw [Blake3.verify, beq_iff_eq]
  exact eq_comm

/-- C7 (code bug): a decrypt input whose base64 decoding fails does yield
the required recoverable format error, but a valid base64 input whose
decoded envelope is shorter than 24 bytes makes `split_at(24)` panic
instead of returning a format error (shown at the empty envelope, the
decoding of the empty input). -/
theorem malformed_decrypt_input :
    XChaCha20Poly1305Key.decrypt ⟨List.replicate 32 0⟩ [33] = .error "invalid base64"
    ∧ XChaCha20Poly1305Key.decrypt ⟨List.replicate 32 0⟩ [] = .panicked := by
  decide

/-- C8: the authenticated-encryption key loader takes the base64-decoded
contents of the file when the supplied string names an existing file, and
otherwise the base64 decoding of the string itself; in both branches the
bytes are URL-safe-base64 decoded before becoming the 256-bit key. -/
theorem xchacha_key_load_branches (fs : List Nat → Option (List Nat))
    (path c kb : List Nat) :
    (fs path = some c → b64DecodeBytes c = some kb → kb.length = 32 →
       XChaCha20Poly1305Key.load fs path = .ok ⟨kb⟩)
    ∧ (fs path = none → b64DecodeBytes path = some kb → kb.length = 32 →
       XChaCha20Poly1305Key.load fs path = .ok ⟨kb⟩) := by
  constructor
  · intro h1 h2 h3
    simp [XChaCha20Poly1305Key.load, XChaCha20Poly1305Key.try_new, h1, h2, h3]
  · intro h1 h2 h3
    simp [XChaCha20Poly1305Key.load, XChaCha20Poly1305Key.try_new, h1, h2, h3]

/-- C8 witness: loading from a one-file filesystem whose file holds the
base64 text of an all-zero 32-byte key. -/
theorem xchacha_key_load_branches_witness :
    XChaCha20Poly1305Key.load
      (fun p => if p = [97] then some (b64EncodeBytes (List.replicate 32 0)) else none)
      [97] = .ok ⟨List.replicate 32 0⟩ :=
  (xchacha_key_load_branches
    (fun p => if p = [97] then some (b64EncodeBytes (List.replicate 32 0)) else none)
    [97] (b64EncodeBytes (List.replicate 32 0)) (List.replicate 32 0)).1
    (by decide) (by decide) (by decide)

/-- C9: a key longer than 32 bytes loads successfully for the keyed-hash
scheme with only its first 32 bytes kept, so two keys agreeing on their
first 32 bytes sign every message identically. -/
theorem blake3_long_key_truncation (k1 k2 : List Nat)
    (h1 : 32 < k1.length) (h2 : 32 < k2.length) (hag : k1.take 32 = k2.take 32) :
    Blake3.try_new k1 = .ok ⟨k1.take 32⟩
    ∧ Blake3.try_new k2 = .ok ⟨k2.take 32⟩
    ∧ ∀ msg, Blake3.sign ⟨k1.take 32⟩ msg = Blake3.sign ⟨k2.take 32⟩ msg := by
  refine ⟨?_, ?_, ?_⟩
  · unfold Blake3.try_new
    rw [if_neg (by omega)]
  · unfold Blake3.try_new
    rw [if_neg (by omega)]
  · intro msg
    simp [Blake3.sign, hag]

/-- C9 witness at a 33-byte key and a 32-plus-1-byte key sharing the same
first 32 bytes. -/
theorem blake3_long_key_truncation_witness :
    Blake3.try_new (List.replicate 33 0) = .ok ⟨(List.replicate 33 0).take 32⟩
    ∧ Blake3.sign ⟨(List.replicate 33 0).take 32⟩ [1] =
        Blake3.sign ⟨(List.replicate 32 0 ++ [5]).take 32⟩ [1] :=
  ⟨(blake3_long_key_truncation (List.replicate 33 0) (List.replicate 32 0 ++ [5])
      (by decide) (by decide) (by decide)).1,
   (blake3_long_key_truncation (List.replicate 33 0) (List.replicate 32 0 ++ [5])
      (by decide) (by decide) (by decide)).2.2 [1]⟩

/-- C10: the orchestration encrypt returns the two-element list
`[key used, envelope]`; when the key argument is `-` (byte 45) or empty, a
fresh key is generated and that key is the first element returned. -/
theorem process_text_encrypt_result (fs : List Nat → Option (List Nat))
    (msg key genKey nonce : List Nat) (hg : genKey.length = 32) :
    ((key = [45] ∨ key = []) →
       process_text_encrypt fs msg key genKey nonce =
         .ok [genKey, XChaCha20Poly1305Key.encrypt ⟨genKey⟩ nonce msg])
    ∧ (∀ k, key ≠ [45] → key ≠ [] → XChaCha20Poly1305Key.load fs key = .ok k →
       process_text_encrypt fs msg key genKey nonce =
         .ok [k.key, XChaCha20Poly1305Key.encrypt k nonce msg]) := by
  constructor
  · intro h
    have hcond : ¬(key ≠ [45] ∧ key ≠ []) := by tauto
    simp only [process_text_encrypt, if_neg hcond, XChaCha20Poly1305Key.try_new,
      if_pos hg]
  · intro k h1 h2 hl
    simp only [process_text_encrypt, if_pos (And.intro h1 h2), hl]

/-- C10 witness: with key argument `-` the generated key is returned
first, then the envelope. -/
theorem process_text_encrypt_result_witness :
    process_text_encrypt (fun _ => none) [104] [45] (List.replicate 32 0)
      (List.replicate 24 1) =
      .ok [List.replicate 32 0,
           XChaCha20Poly1305Key.encrypt ⟨List.replicate 32 0⟩ (List.replicate 24 1) [104]] :=
  (process_text_encrypt_result (fun _ => none) [104] [45] (List.replicate 32 0)
    (List.replicate 24 1) (by decide)).1 (Or.inl rfl)

end RCli
